import Mathlib

/-!
# STM32L152 LCD ticker: segment writer, glyph lookup and frame renderer

A shallow embedding of `src/main.c`: the position computation and the
segment permutation of `write_mask_to_lcd_ram`, the glyph table and guard of
`write_char_to_lcd_ram`, the frame loop of `lcd_show` with its accesses to the
peripheral, and the scroll loop of `main`.

Conventions of the embedding.
* The pixel memory `LCD_RAM_COM0 .. LCD_RAM_COM3` is a record of four natural
  numbers; every store into it is reduced modulo `2 ^ 32`.
* C `int` values are integers; the sum `offset + i` of `lcd_show` is reduced
  to the 32 bits of an `int`. The bit indices `P1 .. P4` are shift counts and
  are natural numbers once the slot is in the documented range `0 .. 5`.
* Code whose C behaviour is undefined (an out-of-bounds table read, a modulo by
  zero) returns `Except.error`.
-/

namespace LcdTicker

/-! ## Data model -/

/-- The four words of the LCD pixel memory (`LCD_RAM_COM0 .. LCD_RAM_COM3`). -/
structure LcdRam where
  COM0 : Nat
  COM1 : Nat
  COM2 : Nat
  COM3 : Nat
deriving DecidableEq, Repr

/-- Reasons for which a call has no defined result. -/
inductive Fault where
  /-- A read of `from_ascii[index]` with `index` past the end of the table. -/
  | glyph_index_out_of_bounds (index : Nat)
  /-- A read of `text[index]` outside the string. -/
  | text_index_out_of_bounds (index : Int)
  /-- The remainder `(offset + i) % TEXT_LENGTH` with `TEXT_LENGTH = 0`. -/
  | modulo_by_zero
  /-- The readiness poll never answered true. -/
  | never_ready
deriving DecidableEq, Repr

/-- Modelled from the spec: the constant `LCD_LETTERS_COUNT` of `main.h`, a
header that is not among the sources. The specification gives the display six
character cells, with slot indices in `[0, 6)`. -/
def LCD_LETTERS_COUNT : Nat := 6

/-! ## `write_mask_to_lcd_ram` -/

/-- Lines 88-103 of `write_mask_to_lcd_ram`: the four bit indices
`(P1, P2, P3, P4)` of the character cell `position`. -/
def write_mask_positions (position : Int) : Int × Int × Int × Int :=
  let P1 : Int := if position < 2 then 2 * position else 2 * position + 4
  let P2 : Int := if position = 1 then P1 + 5 else P1 + 1
  let P3 : Int := if position < 3 then (23 - 2 * position) + 6 else (23 - 2 * position) + 4
  if position = 5 then (P1, P2, P3 - 1, P3) else (P1, P2, P3, P3 - 1)

/-- The 32-bit complement `~(1<<P1 | 1<<P2 | 1<<P3 | 1<<P4)` as it is seen by
the `uint32_t` operand of `&=`. -/
def clear_bits (P1 P2 P3 P4 : Nat) : Nat :=
  0xFFFFFFFF ^^^ ((1 <<< P1) ||| (1 <<< P2) ||| (1 <<< P3) ||| (1 <<< P4))

/-- Lines 105-130 of `write_mask_to_lcd_ram`, for given bit indices: read the
four words, clear the cell when asked, OR the sixteen mask bits in, store. -/
def write_mask_at (P1 P2 P3 P4 : Nat) (mask : Nat) (clear_before : Bool)
    (ram : LcdRam) : LcdRam :=
  let COM0 := ram.COM0
  let COM1 := ram.COM1
  let COM2 := ram.COM2
  let COM3 := ram.COM3
  let COM0 := if clear_before then COM0 &&& clear_bits P1 P2 P3 P4 else COM0
  let COM1 := if clear_before then COM1 &&& clear_bits P1 P2 P3 P4 else COM1
  let COM2 := if clear_before then COM2 &&& clear_bits P1 P2 P3 P4 else COM2
  let COM3 := if clear_before then COM3 &&& clear_bits P1 P2 P3 P4 else COM3
  let COM0 := COM0 ||| ((((mask >>> 0x1) &&& 1) <<< P4) ||| (((mask >>> 0x4) &&& 1) <<< P1) |||
    (((mask >>> 0x6) &&& 1) <<< P3) ||| (((mask >>> 0xA) &&& 1) <<< P2))
  let COM1 := COM1 ||| ((((mask >>> 0x0) &&& 1) <<< P4) ||| (((mask >>> 0x2) &&& 1) <<< P2) |||
    (((mask >>> 0x3) &&& 1) <<< P1) ||| (((mask >>> 0x5) &&& 1) <<< P3))
  let COM3 := COM3 ||| ((((mask >>> 0x7) &&& 1) <<< P3) ||| (((mask >>> 0x8) &&& 1) <<< P4) |||
    (((mask >>> 0xB) &&& 1) <<< P1) ||| (((mask >>> 0xE) &&& 1) <<< P2))
  let COM2 := COM2 ||| ((((mask >>> 0x9) &&& 1) <<< P4) ||| (((mask >>> 0xC) &&& 1) <<< P1) |||
    (((mask >>> 0xD) &&& 1) <<< P3) ||| (((mask >>> 0xF) &&& 1) <<< P2))
  { COM0 := COM0 % 2 ^ 32, COM1 := COM1 % 2 ^ 32, COM2 := COM2 % 2 ^ 32, COM3 := COM3 % 2 ^ 32 }

/-- The function `write_mask_to_lcd_ram(position, mask, clear_before)` as a
transformer of the pixel memory. The bit indices are used as shift counts;
they are non-negative for every `position` of the documented range `0 .. 5`. -/
def write_mask_to_lcd_ram (position : Int) (mask : Nat) (clear_before : Bool)
    (ram : LcdRam) : LcdRam :=
  match write_mask_positions position with
  | (P1, P2, P3, P4) => write_mask_at P1.toNat P2.toNat P3.toNat P4.toNat mask clear_before ram

/-! ## `write_char_to_lcd_ram` -/

/-- The glyph table `from_ascii[0x60]` of `write_char_to_lcd_ram`. -/
def from_ascii : List Nat := [
  0x0000, 0x0000, 0x0000, 0x0000, 0x0000, 0x0000, 0x0000, 0x0000,
  0x0000, 0x0000, 0x0000, 0x0000, 0x0000, 0x0000, 0x0000, 0x0000,
  0x0000, 0x0000, 0x0000, 0x0000, 0x0000, 0x0000, 0x0000, 0x0000,
  0x0000, 0x0000, 0x0000, 0x0000, 0x0000, 0x0000, 0x0000, 0x0000,
  --         !       "       #       $      %        &       (quote)
  0x0000, 0x0000, 0x0000, 0x0000, 0x0000, 0x0000, 0x0000, 0x0000,
  -- (       )       *       +       ,       -       .       /
  0x0000, 0x0000, 0x3FC0, 0x1540, 0x0000, 0x0440, 0x4000, 0x2200,
  -- 0       1       2       3       4       5       6       7
  0x003F, 0x0006, 0x045B, 0x044F, 0x0466, 0x046D, 0x047D, 0x2201,
  -- 8       9       :       ;       <       =       >       ?
  0x047F, 0x046F, 0x8000, 0x0000, 0x0000, 0x0000, 0x0000, 0x0000,
  -- @       A       B       C       D       E       F       G
  0x0000, 0x0477, 0x047C, 0x0039, 0x045E, 0x0479, 0x0471, 0x043D,
  -- H       I       J       K       L       M       N       O
  0x0476, 0x1109, 0x001E, 0x1B00, 0x0038, 0x02B6, 0x08B6, 0x003F,
  -- P       Q       R       S       T       U       V       W
  0x0473, 0x0467, 0x0C73, 0x046D, 0x1101, 0x003E, 0x0886, 0x2836,
  -- X       Y       Z       [       \       ]       ^       _
  0x2A80, 0x1280, 0x2209, 0x0000, 0x0880, 0x0000, 0x0000, 0x0008
]

/-- The index at which `write_char_to_lcd_ram` reads `from_ascii` for a given
`symbol`: none when the guard `symbol > 0x60` returns early, the symbol itself
otherwise. -/
def write_char_table_index (symbol : Nat) : Option Nat :=
  if symbol > 0x60 then none else some symbol

/-- The function `write_char_to_lcd_ram(position, symbol, clear_before)`. The
early return leaves the pixel memory as it is; a table read past the last
entry has no defined value and is reported as a fault. -/
def write_char_to_lcd_ram (position : Int) (symbol : Nat) (clear_before : Bool)
    (ram : LcdRam) : Except Fault LcdRam :=
  match write_char_table_index symbol with
  | none => .ok ram
  | some index =>
    match from_ascii[index]? with
    | none => .error (.glyph_index_out_of_bounds index)
    | some mask => .ok (write_mask_to_lcd_ram position mask clear_before ram)

/-! ## `lcd_show` -/

/-- The busy wait `do {} while (!lcd_is_for_update_ready());`. The list holds
the answers of the peripheral to the successive polls; the wait is over at
the first true answer, and the answers left over are returned. A peripheral
that never answers true keeps the loop spinning for ever (`never_ready`). -/
def wait_for_update_ready : List Bool → Except Fault (List Bool)
  | [] => .error .never_ready
  | true :: rest => .ok rest
  | false :: rest => wait_for_update_ready rest

/-- The library function `strlen`. A C string is modelled as the list of its
characters before the terminating zero, so its length is the length of the
list. -/
def strlen (text : List Nat) : Nat := text.length

/-- The value of a sum of two `int` on the 32-bit target: the sum reduced
modulo `2 ^ 32` into the range of `int`, from `-2 ^ 31` to `2 ^ 31 - 1`. -/
def wrap_int32 (x : Int) : Int := (x + 2 ^ 31) % 2 ^ 32 - 2 ^ 31

/-- The argument `text[(offset + i) % TEXT_LENGTH]` of the call in the loop
body of `lcd_show`, converted to the `uint8_t` parameter. The sum `offset + i`
is a sum of two `int` and wraps around past `INT_MAX`; the remainder is the
truncating remainder of C, negative for a negative sum; an index outside the
string is a fault. The length of a string of the 32-bit target is below
`2 ^ 31`, so its conversion to `int` keeps it. -/
def text_symbol (text : List Nat) (offset : Int) (i : Nat) : Except Fault Nat :=
  let TEXT_LENGTH : Int := strlen text
  if TEXT_LENGTH = 0 then .error .modulo_by_zero
  else
    let index : Int := Int.tmod (wrap_int32 (offset + i)) TEXT_LENGTH
    if index < 0 then .error (.text_index_out_of_bounds index)
    else
      match text[index.toNat]? with
      | none => .error (.text_index_out_of_bounds index)
      | some c => .ok (c % 256)

/-- The loop `for (int i=0; i<LCD_LETTERS_COUNT; ++i)` of `lcd_show`, entered
at index `i` with `remaining` iterations left. -/
def lcd_show_loop (text : List Nat) (offset : Int) :
    (remaining : Nat) → (i : Nat) → LcdRam → Except Fault LcdRam
  | 0, _, ram => .ok ram
  | remaining + 1, i, ram =>
    match text_symbol text offset i with
    | .error e => .error e
    | .ok symbol =>
      match write_char_to_lcd_ram i symbol true ram with
      | .error e => .error e
      | .ok ram => lcd_show_loop text offset remaining (i + 1) ram

/-- The function `lcd_show(text, offset)` as a transformer of the pixel
memory: wait for the peripheral, write the six cells. The closing
`lcd_update()` sets the update request of the status register and touches no
pixel memory word. -/
def lcd_show (ready : List Bool) (text : List Nat) (offset : Int) (ram : LcdRam) :
    Except Fault LcdRam :=
  match wait_for_update_ready ready with
  | .error e => .error e
  | .ok _ => lcd_show_loop text offset LCD_LETTERS_COUNT 0 ram

/-! ## The specification side -/

/-- The position algorithm `mapSlot` as the specification writes it (§4.2). -/
def spec_mapSlot (slot : Int) : Int × Int × Int × Int :=
  let P1 : Int := if slot < 2 then 2 * slot else 2 * slot + 4
  let P2 : Int := if slot = 1 then P1 + 5 else P1 + 1
  let P3 : Int := if slot < 3 then (23 - 2 * slot) + 6 else (23 - 2 * slot) + 4
  if slot = 5 then
    let P4 := P3
    let P3 := P3 - 1
    (P1, P2, P3, P4)
  else
    let P4 := P3 - 1
    (P1, P2, P3, P4)

/-- The names of the four pixel memory words. -/
inductive ComWord where
  | COM0 | COM1 | COM2 | COM3
deriving DecidableEq, Repr

/-- The names of the four bit indices of a character cell. -/
inductive BitSlot where
  | P1 | P2 | P3 | P4
deriving DecidableEq, Repr

/-- The word of the pixel memory that a name stands for. -/
def LcdRam.word (ram : LcdRam) : ComWord → Nat
  | .COM0 => ram.COM0
  | .COM1 => ram.COM1
  | .COM2 => ram.COM2
  | .COM3 => ram.COM3

/-- The bit index that a bit slot name stands for, among given `P1 .. P4`. -/
def BitSlot.index (P1 P2 P3 P4 : Nat) : BitSlot → Nat
  | .P1 => P1
  | .P2 => P2
  | .P3 => P3
  | .P4 => P4

/-- The permutation table of the specification (§4.3): entry `k` is the word
and the bit slot that mask bit `k` is wired to. -/
def spec_segment_table : List (ComWord × BitSlot) := [
  (.COM1, .P4), (.COM0, .P4), (.COM1, .P2), (.COM1, .P1),
  (.COM0, .P1), (.COM1, .P3), (.COM0, .P3), (.COM3, .P3),
  (.COM3, .P4), (.COM2, .P4), (.COM0, .P2), (.COM3, .P1),
  (.COM2, .P1), (.COM2, .P3), (.COM3, .P2), (.COM2, .P2)]

/-- Read the table entries from mask bit `k` on: the bit of each entry is
taken from its word at its bit index and put at its mask bit. -/
def read_mask_bits (P1 P2 P3 P4 : Nat) (ram : LcdRam) : Nat → List (ComWord × BitSlot) → Nat
  | _, [] => 0
  | k, (w, p) :: rest =>
    ((((ram.word w) >>> (BitSlot.index P1 P2 P3 P4 p)) &&& 1) <<< k) |||
      read_mask_bits P1 P2 P3 P4 ram (k + 1) rest

/-- The mask of a cell with bit indices `P1 .. P4`, read back from the pixel
memory through the permutation table of the specification. -/
def read_mask_at (P1 P2 P3 P4 : Nat) (ram : LcdRam) : Nat :=
  read_mask_bits P1 P2 P3 P4 ram 0 spec_segment_table

/-- The mask of the cell `position`, read back from the pixel memory. -/
def read_mask_from_lcd_ram (position : Int) (ram : LcdRam) : Nat :=
  match write_mask_positions position with
  | (P1, P2, P3, P4) => read_mask_at P1.toNat P2.toNat P3.toNat P4.toNat ram

/-- The word (a name) and the bit index that the table gives to mask bit `k`
of the cell `position`. -/
def spec_target (position : Int) (k : Nat) : Option (ComWord × Nat) :=
  match write_mask_positions position with
  | (P1, P2, P3, P4) =>
    spec_segment_table[k]?.map fun e => (e.1, BitSlot.index P1.toNat P2.toNat P3.toNat P4.toNat e.2)

/-- The mask bit that the table wires to bit slot `p` of word `w`: the table
read from the pair to the mask bit. -/
def spec_segment_of : ComWord → BitSlot → Nat
  | .COM0, .P1 => 0x4 | .COM0, .P2 => 0xA | .COM0, .P3 => 0x6 | .COM0, .P4 => 0x1
  | .COM1, .P1 => 0x3 | .COM1, .P2 => 0x2 | .COM1, .P3 => 0x5 | .COM1, .P4 => 0x0
  | .COM2, .P1 => 0xC | .COM2, .P2 => 0xF | .COM2, .P3 => 0xD | .COM2, .P4 => 0x9
  | .COM3, .P1 => 0xB | .COM3, .P2 => 0xE | .COM3, .P3 => 0x7 | .COM3, .P4 => 0x8

/-- Bit indices of a well-formed cell: below 32 and pairwise distinct. -/
def CellOk (P1 P2 P3 P4 : Nat) : Prop :=
  (P1 < 32 ∧ P2 < 32 ∧ P3 < 32 ∧ P4 < 32) ∧
    (P1 ≠ P2 ∧ P1 ≠ P3 ∧ P1 ≠ P4 ∧ P2 ≠ P3 ∧ P2 ≠ P4 ∧ P3 ≠ P4)

instance (P1 P2 P3 P4 : Nat) : Decidable (CellOk P1 P2 P3 P4) := by
  unfold CellOk; infer_instance

/-- Whether the bit index `j` is one of `P1 .. P4`. -/
def in_cell (P1 P2 P3 P4 j : Nat) : Bool :=
  decide (j = P1) || decide (j = P2) || decide (j = P3) || decide (j = P4)

/-- The bit that a write of `mask` ORs into bit `j` of word `w`. -/
def wired_bit (P1 P2 P3 P4 mask : Nat) (w : ComWord) (j : Nat) : Bool :=
  (decide (j = P1) && mask.testBit (spec_segment_of w .P1)) ||
  (decide (j = P2) && mask.testBit (spec_segment_of w .P2)) ||
  (decide (j = P3) && mask.testBit (spec_segment_of w .P3)) ||
  (decide (j = P4) && mask.testBit (spec_segment_of w .P4))

/-- The bit of the pixel memory that a table entry points at (false when
there is no entry). -/
def table_bit (P1 P2 P3 P4 : Nat) (ram : LcdRam) : Option (ComWord × BitSlot) → Bool
  | none => false
  | some (w, p) => (ram.word w).testBit (BitSlot.index P1 P2 P3 P4 p)

/-- The pixel memory in which bit `p` of word `w` is the only bit set. -/
def single_bit_ram (w : ComWord) (p : Nat) : LcdRam :=
  { COM0 := if w = .COM0 then 1 <<< p else 0
    COM1 := if w = .COM1 then 1 <<< p else 0
    COM2 := if w = .COM2 then 1 <<< p else 0
    COM3 := if w = .COM3 then 1 <<< p else 0 }

/-! ## Further notions of the properties -/

/-- The codes to which the specification (§4.1) gives a visible glyph: the
digits, the upper case letters and the symbols `* + - . / : _`. -/
def spec_has_glyph (c : Nat) : Bool :=
  (decide (0x30 ≤ c) && decide (c ≤ 0x39)) || (decide (0x41 ≤ c) && decide (c ≤ 0x5A)) ||
    decide (c ∈ [0x2A, 0x2B, 0x2D, 0x2E, 0x2F, 0x3A, 0x5F])

/-- The four bit indices of the cell `position` as a list. -/
def write_mask_position_list (position : Int) : List Int :=
  match write_mask_positions position with
  | (P1, P2, P3, P4) => [P1, P2, P3, P4]

/-- The pixel memory holds 32-bit words. -/
def LcdRam.wf (ram : LcdRam) : Prop :=
  ram.COM0 < 2 ^ 32 ∧ ram.COM1 < 2 ^ 32 ∧ ram.COM2 < 2 ^ 32 ∧ ram.COM3 < 2 ^ 32

instance (ram : LcdRam) : Decidable ram.wf := by
  unfold LcdRam.wf; infer_instance

/-! ## The accesses to the peripheral -/

/-- The step `++offset, offset%=TEXT_LENGTH` of the loop of `main`; the
remainder by a zero length is a fault. -/
def main_next_offset (TEXT_LENGTH : Int) (offset : Int) : Except Fault Int :=
  if TEXT_LENGTH = 0 then .error .modulo_by_zero
  else .ok (Int.tmod (offset + 1) TEXT_LENGTH)

/-- The loop `for (int offset=0; ; ++offset, offset%=TEXT_LENGTH)` of `main`,
observed over its next `iterations` iterations, from the iteration `n` on:
the offsets passed to `lcd_show`, in their order, and the offset and the pixel
memory after the last of these iterations. The answers of the peripheral in
iteration `n` are `ready n`; the delay loop of the body touches no state. -/
def main_loop (ready : Nat → List Bool) (TEXT : List Nat) :
    (iterations : Nat) → (n : Nat) → (offset : Int) → LcdRam →
      List Int × Except Fault (Int × LcdRam)
  | 0, _, offset, ram => ([], .ok (offset, ram))
  | iterations + 1, n, offset, ram =>
    match lcd_show (ready n) TEXT offset ram with
    | .error e => ([offset], .error e)
    | .ok ram =>
      match main_next_offset (strlen TEXT) offset with
      | .error e => ([offset], .error e)
      | .ok next =>
        (offset :: (main_loop ready TEXT iterations (n + 1) next ram).1,
          (main_loop ready TEXT iterations (n + 1) next ram).2)

/-- The function `main` after `lcd_init()`, observed over its first
`iterations` iterations: the loop starts with the offset 0. The text `TEXT` of
`main.h`, a header that is not among the sources, is a parameter. -/
def main (ready : Nat → List Bool) (TEXT : List Nat) (iterations : Nat) (ram : LcdRam) :
    List Int × Except Fault (Int × LcdRam) :=
  main_loop ready TEXT iterations 0 0 ram

/-! ## Bit level lemmas -/

theorem testBit_mask_bit (x k p j : Nat) :
    (((x >>> k) &&& 1) <<< p).testBit j = (decide (j = p) && x.testBit k) := by
  simp only [Nat.testBit_shiftLeft, Nat.testBit_and, Nat.testBit_shiftRight]
  by_cases h : j = p
  · subst h; simp
  · by_cases h2 : j ≥ p
    · have h3 : j - p ≠ 0 := by omega
      have h1 : Nat.testBit 1 (j - p) = false := by
        cases hb : Nat.testBit 1 (j - p)
        · rfl
        · exact absurd (Nat.testBit_one_eq_true_iff_self_eq_zero.mp hb) h3
      simp [h, h1]
    · simp [h, h2]

theorem testBit_one_shiftLeft (p j : Nat) : ((1 : Nat) <<< p).testBit j = decide (j = p) := by
  rw [Nat.one_shiftLeft, Nat.testBit_two_pow]
  by_cases h : j = p
  · subst h; simp
  · have : ¬ p = j := fun e => h e.symm
    simp [h, this]

theorem testBit_clear_bits (P1 P2 P3 P4 j : Nat) :
    (clear_bits P1 P2 P3 P4).testBit j = (decide (j < 32) != in_cell P1 P2 P3 P4 j) := by
  have h : (0xFFFFFFFF : Nat) = 2 ^ 32 - 1 := by norm_num
  unfold clear_bits in_cell
  rw [h]
  simp only [Nat.testBit_xor, Nat.testBit_or, testBit_one_shiftLeft, Nat.testBit_two_pow_sub_one]

/-- Boolean form of one word update, with the four ORed bits in any order. -/
theorem bool_word_update (lt old cb e1 e2 e3 e4 b1 b2 b3 b4 : Bool) :
    ((lt && ((bif cb then (old && (lt != (e1 || e2 || e3 || e4))) else old) ||
        ((e4 && b4) || (e1 && b1) || (e3 && b3) || (e2 && b2)))) =
      (lt && ((old && !(cb && (e1 || e2 || e3 || e4))) ||
        ((e1 && b1) || (e2 && b2) || (e3 && b3) || (e4 && b4))))) ∧
    ((lt && ((bif cb then (old && (lt != (e1 || e2 || e3 || e4))) else old) ||
        ((e4 && b4) || (e2 && b2) || (e1 && b1) || (e3 && b3)))) =
      (lt && ((old && !(cb && (e1 || e2 || e3 || e4))) ||
        ((e1 && b1) || (e2 && b2) || (e3 && b3) || (e4 && b4))))) ∧
    ((lt && ((bif cb then (old && (lt != (e1 || e2 || e3 || e4))) else old) ||
        ((e3 && b3) || (e4 && b4) || (e1 && b1) || (e2 && b2)))) =
      (lt && ((old && !(cb && (e1 || e2 || e3 || e4))) ||
        ((e1 && b1) || (e2 && b2) || (e3 && b3) || (e4 && b4))))) := by
  revert lt old cb e1 e2 e3 e4 b1 b2 b3 b4
  decide

/-- Every bit of every word after `write_mask_at`. -/
theorem testBit_write_mask_at (P1 P2 P3 P4 mask : Nat) (cb : Bool) (ram : LcdRam)
    (w : ComWord) (j : Nat) :
    ((write_mask_at P1 P2 P3 P4 mask cb ram).word w).testBit j =
      (decide (j < 32) &&
        (((ram.word w).testBit j && !(cb && in_cell P1 P2 P3 P4 j)) ||
          wired_bit P1 P2 P3 P4 mask w j)) := by
  have hb := bool_word_update (decide (j < 32)) ((ram.word w).testBit j) cb
    (decide (j = P1)) (decide (j = P2)) (decide (j = P3)) (decide (j = P4))
    (mask.testBit (spec_segment_of w .P1)) (mask.testBit (spec_segment_of w .P2))
    (mask.testBit (spec_segment_of w .P3)) (mask.testBit (spec_segment_of w .P4))
  unfold wired_bit
  rw [show in_cell P1 P2 P3 P4 j =
    (decide (j = P1) || decide (j = P2) || decide (j = P3) || decide (j = P4)) from rfl]
  cases w
  · rw [← hb.1]
    cases cb <;>
      simp only [write_mask_at, LcdRam.word, spec_segment_of, Nat.testBit_mod_two_pow,
        Nat.testBit_or, Nat.testBit_and, testBit_mask_bit, testBit_clear_bits, in_cell,
        cond_true, cond_false, if_true, if_false, Bool.false_eq_true]
  · rw [← hb.2.1]
    cases cb <;>
      simp only [write_mask_at, LcdRam.word, spec_segment_of, Nat.testBit_mod_two_pow,
        Nat.testBit_or, Nat.testBit_and, testBit_mask_bit, testBit_clear_bits, in_cell,
        cond_true, cond_false, if_true, if_false, Bool.false_eq_true]
  · rw [← hb.1]
    cases cb <;>
      simp only [write_mask_at, LcdRam.word, spec_segment_of, Nat.testBit_mod_two_pow,
        Nat.testBit_or, Nat.testBit_and, testBit_mask_bit, testBit_clear_bits, in_cell,
        cond_true, cond_false, if_true, if_false, Bool.false_eq_true]
  · rw [← hb.2.2]
    cases cb <;>
      simp only [write_mask_at, LcdRam.word, spec_segment_of, Nat.testBit_mod_two_pow,
        Nat.testBit_or, Nat.testBit_and, testBit_mask_bit, testBit_clear_bits, in_cell,
        cond_true, cond_false, if_true, if_false, Bool.false_eq_true]

/-- Two pixel memories with the same bits are equal. -/
theorem LcdRam.ext_testBit (a b : LcdRam)
    (h : ∀ (w : ComWord) (j : Nat), (a.word w).testBit j = (b.word w).testBit j) : a = b := by
  cases a; cases b
  have h0 := Nat.eq_of_testBit_eq (h .COM0)
  have h1 := Nat.eq_of_testBit_eq (h .COM1)
  have h2 := Nat.eq_of_testBit_eq (h .COM2)
  have h3 := Nat.eq_of_testBit_eq (h .COM3)
  simp only [LcdRam.word] at h0 h1 h2 h3
  subst h0 h1 h2 h3
  rfl

theorem bool_overwrite (lt old e1 e2 e3 e4 b1 b2 b3 b4 n : Bool) :
    (lt && (((lt && ((old && !(true && (e1 || e2 || e3 || e4))) ||
        ((e1 && b1) || (e2 && b2) || (e3 && b3) || (e4 && b4)))) &&
          !(true && (e1 || e2 || e3 || e4))) || n)) =
      (lt && ((old && !(true && (e1 || e2 || e3 || e4))) || n)) := by
  revert lt old e1 e2 e3 e4 b1 b2 b3 b4 n
  decide

/-- A clearing write makes the earlier clearing write to the same cell
unobservable. -/
theorem write_mask_at_overwrite (P1 P2 P3 P4 M N : Nat) (ram : LcdRam) :
    write_mask_at P1 P2 P3 P4 N true (write_mask_at P1 P2 P3 P4 M true ram) =
      write_mask_at P1 P2 P3 P4 N true ram := by
  apply LcdRam.ext_testBit
  intro w j
  rw [testBit_write_mask_at, testBit_write_mask_at, testBit_write_mask_at]
  exact bool_overwrite _ _ _ _ _ _ _ _ _ _ _

/-- Inside the cell, a write leaves the wired mask bit ORed with what a
non-clearing write found there. -/
theorem testBit_write_mask_at_in (P1 P2 P3 P4 : Nat) (hP : CellOk P1 P2 P3 P4) (mask : Nat)
    (cb : Bool) (ram : LcdRam) (w : ComWord) (p : BitSlot) :
    ((write_mask_at P1 P2 P3 P4 mask cb ram).word w).testBit (BitSlot.index P1 P2 P3 P4 p) =
      (mask.testBit (spec_segment_of w p) ||
        (!cb && (ram.word w).testBit (BitSlot.index P1 P2 P3 P4 p))) := by
  obtain ⟨⟨l1, l2, l3, l4⟩, n12, n13, n14, n23, n24, n34⟩ := hP
  rw [testBit_write_mask_at]
  cases p <;>
    simp [BitSlot.index, in_cell, wired_bit, l1, l2, l3, l4, n12, n13, n14, n23, n24, n34,
      Ne.symm n12, Ne.symm n13, Ne.symm n14, Ne.symm n23, Ne.symm n24, Ne.symm n34] <;>
    cases cb <;> simp [Bool.or_comm]

/-- Outside the cell, a write changes nothing below bit 32. -/
theorem testBit_write_mask_at_out (P1 P2 P3 P4 mask : Nat) (cb : Bool) (ram : LcdRam)
    (w : ComWord) (j : Nat) (hj : in_cell P1 P2 P3 P4 j = false) :
    ((write_mask_at P1 P2 P3 P4 mask cb ram).word w).testBit j =
      (decide (j < 32) && (ram.word w).testBit j) := by
  rw [testBit_write_mask_at, hj]
  simp only [in_cell, Bool.or_eq_false_iff, decide_eq_false_iff_not] at hj
  obtain ⟨⟨⟨h1, h2⟩, h3⟩, h4⟩ := hj
  simp [wired_bit, h1, h2, h3, h4]

theorem testBit_read_mask_bits (P1 P2 P3 P4 : Nat) (ram : LcdRam)
    (l : List (ComWord × BitSlot)) (k i : Nat) :
    (read_mask_bits P1 P2 P3 P4 ram k l).testBit i =
      (decide (k ≤ i) && table_bit P1 P2 P3 P4 ram l[i - k]?) := by
  induction l generalizing k with
  | nil => simp [read_mask_bits, table_bit]
  | cons e rest ih =>
    obtain ⟨w, p⟩ := e
    rw [read_mask_bits, Nat.testBit_or, testBit_mask_bit, ih]
    rcases Nat.lt_trichotomy i k with h | h | h
    · have h1 : ¬ i = k := by omega
      have h2 : ¬ k ≤ i := by omega
      have h3 : ¬ k + 1 ≤ i := by omega
      simp [h1, h2, h3]
    · subst h
      simp [table_bit]
    · have h1 : ¬ i = k := by omega
      have h2 : k ≤ i := by omega
      have h3 : k + 1 ≤ i := by omega
      have h4 : i - k = (i - (k + 1)) + 1 := by omega
      rw [h4, List.getElem?_cons_succ]
      simp [h1, h2, h3]

theorem testBit_read_mask_at (P1 P2 P3 P4 : Nat) (ram : LcdRam) (i : Nat) :
    (read_mask_at P1 P2 P3 P4 ram).testBit i =
      table_bit P1 P2 P3 P4 ram spec_segment_table[i]? := by
  rw [read_mask_at, testBit_read_mask_bits]
  simp

/-- The two readings of the table are inverse to each other. -/
theorem spec_segment_of_table (i : Nat) (w : ComWord) (p : BitSlot)
    (h : spec_segment_table[i]? = some (w, p)) : spec_segment_of w p = i := by
  have hi : i < 16 := by
    by_contra hc
    have : spec_segment_table[i]? = none := by
      apply List.getElem?_eq_none
      simp only [spec_segment_table, List.length_cons, List.length_nil]
      omega
    rw [this] at h
    cases h
  interval_cases i <;>
    · simp only [spec_segment_table] at h
      cases h
      rfl

/-- Reading a cell after a write to it: the low sixteen bits of the mask,
ORed with the old content when the write did not clear. -/
theorem read_write_mask_at_same (P1 P2 P3 P4 : Nat) (hP : CellOk P1 P2 P3 P4) (M : Nat)
    (cb : Bool) (ram : LcdRam) :
    read_mask_at P1 P2 P3 P4 (write_mask_at P1 P2 P3 P4 M cb ram) =
      ((M % 2 ^ 16) ||| (bif cb then 0 else read_mask_at P1 P2 P3 P4 ram)) := by
  apply Nat.eq_of_testBit_eq
  intro i
  rw [Nat.testBit_or, Nat.testBit_mod_two_pow, testBit_read_mask_at]
  have hr := testBit_read_mask_at P1 P2 P3 P4 ram i
  cases h : spec_segment_table[i]? with
  | none =>
    have hi : ¬ i < 16 := by
      intro hlt
      have : i < spec_segment_table.length := by
        simpa only [spec_segment_table, List.length_cons, List.length_nil] using hlt
      rw [List.getElem?_eq_getElem this] at h
      cases h
    rw [h] at hr
    cases cb <;> simp [table_bit, hi, hr]
  | some e =>
    obtain ⟨w, p⟩ := e
    have hi : i < 16 := by
      by_contra hc
      have : spec_segment_table[i]? = none := by
        apply List.getElem?_eq_none
        simp only [spec_segment_table, List.length_cons, List.length_nil]
        omega
      rw [this] at h
      cases h
    rw [h] at hr
    simp only [table_bit] at hr ⊢
    rw [testBit_write_mask_at_in P1 P2 P3 P4 hP, spec_segment_of_table i w p h]
    cases cb <;> simp [hi, hr]

/-- Reading a cell after a write to another cell, whose bit indices are all
different: the write is not seen. -/
theorem read_write_mask_at_other (P1 P2 P3 P4 Q1 Q2 Q3 Q4 : Nat)
    (hQ : Q1 < 32 ∧ Q2 < 32 ∧ Q3 < 32 ∧ Q4 < 32)
    (hPQ : in_cell P1 P2 P3 P4 Q1 = false ∧ in_cell P1 P2 P3 P4 Q2 = false ∧
      in_cell P1 P2 P3 P4 Q3 = false ∧ in_cell P1 P2 P3 P4 Q4 = false)
    (M : Nat) (cb : Bool) (ram : LcdRam) :
    read_mask_at Q1 Q2 Q3 Q4 (write_mask_at P1 P2 P3 P4 M cb ram) =
      read_mask_at Q1 Q2 Q3 Q4 ram := by
  apply Nat.eq_of_testBit_eq
  intro i
  rw [testBit_read_mask_at, testBit_read_mask_at]
  cases spec_segment_table[i]? with
  | none => rfl
  | some e =>
    obtain ⟨w, p⟩ := e
    obtain ⟨q1, q2, q3, q4⟩ := hQ
    obtain ⟨d1, d2, d3, d4⟩ := hPQ
    cases p <;> simp only [table_bit, BitSlot.index]
    · rw [testBit_write_mask_at_out _ _ _ _ _ _ _ _ _ d1]; simp [q1]
    · rw [testBit_write_mask_at_out _ _ _ _ _ _ _ _ _ d2]; simp [q2]
    · rw [testBit_write_mask_at_out _ _ _ _ _ _ _ _ _ d3]; simp [q3]
    · rw [testBit_write_mask_at_out _ _ _ _ _ _ _ _ _ d4]; simp [q4]

/-! ## Slot level lemmas -/

/-- A clearing write to a slot makes the earlier clearing write to that slot
unobservable. -/
theorem write_mask_overwrite (s : Int) (M N : Nat) (ram : LcdRam) :
    write_mask_to_lcd_ram s N true (write_mask_to_lcd_ram s M true ram) =
      write_mask_to_lcd_ram s N true ram := by
  unfold write_mask_to_lcd_ram
  exact write_mask_at_overwrite _ _ _ _ M N ram

/-- Reading a slot back after a write to it. -/
theorem read_write_mask_same (s : Int) (h0 : 0 ≤ s) (h5 : s ≤ 5) (M : Nat) (cb : Bool)
    (ram : LcdRam) :
    read_mask_from_lcd_ram s (write_mask_to_lcd_ram s M cb ram) =
      ((M % 2 ^ 16) ||| (bif cb then 0 else read_mask_from_lcd_ram s ram)) := by
  interval_cases s
  · exact read_write_mask_at_same 0 1 29 28 (by decide) M cb ram
  · exact read_write_mask_at_same 2 7 27 26 (by decide) M cb ram
  · exact read_write_mask_at_same 8 9 25 24 (by decide) M cb ram
  · exact read_write_mask_at_same 10 11 21 20 (by decide) M cb ram
  · exact read_write_mask_at_same 12 13 19 18 (by decide) M cb ram
  · exact read_write_mask_at_same 14 15 16 17 (by decide) M cb ram

/-- Reading a slot back after a write to another slot. -/
theorem read_write_mask_other (s t : Int) (hs0 : 0 ≤ s) (hs5 : s ≤ 5) (ht0 : 0 ≤ t)
    (ht5 : t ≤ 5) (hne : s ≠ t) (M : Nat) (cb : Bool) (ram : LcdRam) :
    read_mask_from_lcd_ram t (write_mask_to_lcd_ram s M cb ram) =
      read_mask_from_lcd_ram t ram := by
  interval_cases s <;> interval_cases t <;>
    first
    | exact absurd rfl hne
    | exact read_write_mask_at_other _ _ _ _ _ _ _ _ (by decide) (by decide) M cb ram

/-! ## Glyph lookup and frame loop lemmas -/

theorem from_ascii_length : from_ascii.length = 0x60 := by decide

theorem from_ascii_lt : ∀ m ∈ from_ascii, m < 2 ^ 16 := by decide

/-- A code below 0x60 has a table entry, and the entry is a 16-bit mask. -/
theorem from_ascii_lookup (c : Nat) (hc : c < 0x60) :
    ∃ m, from_ascii[c]? = some m ∧ m < 2 ^ 16 := by
  have hlen : c < from_ascii.length := by rw [from_ascii_length]; exact hc
  exact ⟨from_ascii[c], List.getElem?_eq_getElem hlen,
    from_ascii_lt _ (List.getElem_mem hlen)⟩

/-- For a code below 0x60 `write_char_to_lcd_ram` writes the table entry. -/
theorem write_char_of_lookup (s : Int) (c m : Nat) (cb : Bool) (ram : LcdRam)
    (hc : c < 0x60) (hm : from_ascii[c]? = some m) :
    write_char_to_lcd_ram s c cb ram = .ok (write_mask_to_lcd_ram s m cb ram) := by
  have hg : ¬ c > 0x60 := by omega
  simp only [write_char_to_lcd_ram, write_char_table_index, hg, if_false, hm]

/-- A sum of two `int` that is not negative and does not exceed `INT_MAX` is
the sum of the integers. -/
theorem wrap_int32_of_nat (n i : Nat) (hb : n + i < 2 ^ 31) :
    wrap_int32 ((n : Int) + (i : Int)) = (n : Int) + (i : Int) := by
  unfold wrap_int32
  omega

/-- The character that the loop body picks for slot `i`, when the sum of the
offset and `i` does not exceed `INT_MAX`. -/
theorem text_symbol_of_nat (text : List Nat) (n i : Nat) (hne : text ≠ [])
    (hb : n + i < 2 ^ 31) :
    ∃ c, text[(n + i) % text.length]? = some c ∧
      text_symbol text (n : Int) i = .ok (c % 256) := by
  have hlen : 0 < text.length := List.length_pos.mpr hne
  have hidx : (n + i) % text.length < text.length := Nat.mod_lt _ hlen
  refine ⟨text[(n + i) % text.length], List.getElem?_eq_getElem hidx, ?_⟩
  have h0 : ¬ (((strlen text : Nat) : Int) = 0) := by unfold strlen; omega
  have hmod : Int.tmod (wrap_int32 ((n : Int) + (i : Int))) (text.length : Int) =
      (((n + i) % text.length : Nat) : Int) := by
    rw [wrap_int32_of_nat n i hb, Int.tmod_eq_emod (by omega) (by omega)]
    norm_cast
  have hnn : ¬ ((((n + i) % text.length : Nat) : Int) < 0) := by omega
  simp only [text_symbol, h0, if_false]
  simp only [strlen, hmod, hnn, if_false, Int.toNat_ofNat, List.getElem?_eq_getElem hidx]

theorem wait_for_update_ready_ok (ready : List Bool) (h : true ∈ ready) :
    ∃ rest, wait_for_update_ready ready = .ok rest := by
  induction ready with
  | nil => cases h
  | cons b rest ih =>
    cases b with
    | true => exact ⟨rest, rfl⟩
    | false =>
      have h2 : true ∈ rest := by
        cases h with
        | tail _ h2 => exact h2
      exact ih h2

/-- The frame loop from slot `i` on: it succeeds, the slots from `i` on read
back as the glyph masks of their characters, the slots before `i` read back
as before. -/
theorem lcd_show_loop_reads (text : List Nat) (n : Nat) (hne : text ≠ [])
    (hcodes : ∀ c ∈ text, c < 0x60) (hoff : n + 5 < 2 ^ 31) :
    ∀ (r i : Nat) (ram : LcdRam), i + r = 6 →
      ∃ ram2, lcd_show_loop text (n : Int) r i ram = .ok ram2 ∧
        (∀ k : Nat, i ≤ k → k < 6 →
          some (read_mask_from_lcd_ram (k : Int) ram2) =
            (text[(n + k) % text.length]?).bind (fun c => from_ascii[c]?)) ∧
        (∀ k : Nat, k < i →
          read_mask_from_lcd_ram (k : Int) ram2 = read_mask_from_lcd_ram (k : Int) ram) := by
  intro r
  induction r with
  | zero =>
    intro i ram hi
    refine ⟨ram, rfl, ?_, fun _ _ => rfl⟩
    intro k hik hk
    omega
  | succ r ih =>
    intro i ram hi
    obtain ⟨c, hc, hsym⟩ := text_symbol_of_nat text n i hne (by omega)
    have hc60 : c < 0x60 := hcodes c (List.getElem?_mem hc)
    have hc256 : c % 256 = c := Nat.mod_eq_of_lt (by omega)
    obtain ⟨m, hm, hm16⟩ := from_ascii_lookup c hc60
    have hwr := write_char_of_lookup (i : Int) c m true ram hc60 hm
    obtain ⟨ram2, hloop, hge, hlt⟩ :=
      ih (i + 1) (write_mask_to_lcd_ram (i : Int) m true ram) (by omega)
    refine ⟨ram2, ?_, ?_, ?_⟩
    · simp only [lcd_show_loop, hsym, hc256, hwr, hloop]
    · intro k hik hk
      rcases Nat.eq_or_lt_of_le hik with h | h
      · subst h
        rw [hlt i (Nat.lt_succ_self i),
          read_write_mask_same (i : Int) (by omega) (by omega), hc, Nat.mod_eq_of_lt hm16]
        simp [hm]
      · exact hge k h hk
    · intro k hk
      rw [hlt k (by omega)]
      exact read_write_mask_other (i : Int) (k : Int) (by omega) (by omega) (by omega)
        (by omega) (by omega) m true ram

/-- The remainder that picks the character does not see a whole turn of the
text added to the offset. -/
theorem text_symbol_add_length (text : List Nat) (n i : Nat) (hne : text ≠ [])
    (hb : n + text.length + i < 2 ^ 31) :
    text_symbol text ((n + text.length : Nat) : Int) i = text_symbol text (n : Int) i := by
  obtain ⟨c, hc, hsym⟩ := text_symbol_of_nat text n i hne (by omega)
  obtain ⟨c2, hc2, hsym2⟩ := text_symbol_of_nat text (n + text.length) i hne hb
  have hidx : (n + text.length + i) % text.length = (n + i) % text.length := by
    rw [Nat.add_right_comm, Nat.add_mod_right]
  rw [hidx, hc] at hc2
  cases hc2
  rw [hsym, hsym2]

/-- The frame loop does not see a whole turn of the text added to the offset. -/
theorem lcd_show_loop_add_length (text : List Nat) (n : Nat) (hne : text ≠ [])
    (hoff : n + text.length + 5 < 2 ^ 31) :
    ∀ (r i : Nat) (ram : LcdRam), i + r = 6 →
      lcd_show_loop text ((n + text.length : Nat) : Int) r i ram =
        lcd_show_loop text (n : Int) r i ram := by
  intro r
  induction r with
  | zero => intro i ram _; rfl
  | succ r ih =>
    intro i ram hi
    have hsym := text_symbol_add_length text n i hne (by omega)
    cases hs : text_symbol text (n : Int) i with
    | error e => simp only [lcd_show_loop, hsym, hs]
    | ok symbol =>
      cases hw : write_char_to_lcd_ram (i : Int) symbol true ram with
      | error e => simp only [lcd_show_loop, hsym, hs, hw]
      | ok ram1 =>
        simp only [lcd_show_loop, hsym, hs, hw]
        exact ih (i + 1) ram1 (by omega)

/-! ## Frame and commutation lemmas -/

/-- A 32-bit word has no bit set from bit 32 on. -/
theorem LcdRam.wf_testBit (ram : LcdRam) (h : ram.wf) (w : ComWord) (j : Nat)
    (hj : ¬ j < 32) : (ram.word w).testBit j = false := by
  obtain ⟨h0, h1, h2, h3⟩ := h
  have hw : ram.word w < 2 ^ 32 := by cases w <;> assumption
  apply Nat.testBit_lt_two_pow
  calc ram.word w < 2 ^ 32 := hw
    _ ≤ 2 ^ j := Nat.pow_le_pow_right (by decide) (by omega)

/-- Every store of `write_mask_at` is a 32-bit word. -/
theorem write_mask_at_wf (P1 P2 P3 P4 mask : Nat) (cb : Bool) (ram : LcdRam) :
    (write_mask_at P1 P2 P3 P4 mask cb ram).wf := by
  unfold write_mask_at LcdRam.wf
  exact ⟨Nat.mod_lt _ (by decide), Nat.mod_lt _ (by decide), Nat.mod_lt _ (by decide),
    Nat.mod_lt _ (by decide)⟩

/-- Outside the cell a write changes no bit of a 32-bit word. -/
theorem write_mask_at_frame (P1 P2 P3 P4 mask : Nat) (cb : Bool) (ram : LcdRam)
    (hwf : ram.wf) (w : ComWord) (j : Nat) (hj : in_cell P1 P2 P3 P4 j = false) :
    ((write_mask_at P1 P2 P3 P4 mask cb ram).word w).testBit j = (ram.word w).testBit j := by
  rw [testBit_write_mask_at_out _ _ _ _ _ _ _ _ _ hj]
  by_cases h : j < 32
  · simp [h]
  · simp [h, LcdRam.wf_testBit ram hwf w j h]

/-- A write without clearing keeps every bit that is set in a 32-bit word. -/
theorem write_mask_at_keeps (P1 P2 P3 P4 mask : Nat) (ram : LcdRam) (hwf : ram.wf)
    (w : ComWord) (j : Nat) (hj : (ram.word w).testBit j = true) :
    ((write_mask_at P1 P2 P3 P4 mask false ram).word w).testBit j = true := by
  have hlt : j < 32 := by
    by_contra h
    rw [LcdRam.wf_testBit ram hwf w j h] at hj
    cases hj
  rw [testBit_write_mask_at]
  simp [hlt, hj]

/-- A bit that a write ORs in lies in the cell. -/
theorem wired_bit_in_cell (P1 P2 P3 P4 mask : Nat) (w : ComWord) (j : Nat)
    (h : wired_bit P1 P2 P3 P4 mask w j = true) : in_cell P1 P2 P3 P4 j = true := by
  unfold wired_bit at h
  unfold in_cell
  revert h
  generalize decide (j = P1) = e1
  generalize decide (j = P2) = e2
  generalize decide (j = P3) = e3
  generalize decide (j = P4) = e4
  generalize mask.testBit (spec_segment_of w .P1) = b1
  generalize mask.testBit (spec_segment_of w .P2) = b2
  generalize mask.testBit (spec_segment_of w .P3) = b3
  generalize mask.testBit (spec_segment_of w .P4) = b4
  revert e1 e2 e3 e4 b1 b2 b3 b4
  decide

/-- A bit index lies in one at most of two cells without a common index. -/
theorem in_cell_disjoint (P1 P2 P3 P4 Q1 Q2 Q3 Q4 : Nat)
    (hPQ : in_cell P1 P2 P3 P4 Q1 = false ∧ in_cell P1 P2 P3 P4 Q2 = false ∧
      in_cell P1 P2 P3 P4 Q3 = false ∧ in_cell P1 P2 P3 P4 Q4 = false) (j : Nat)
    (hj : in_cell Q1 Q2 Q3 Q4 j = true) : in_cell P1 P2 P3 P4 j = false := by
  obtain ⟨d1, d2, d3, d4⟩ := hPQ
  simp only [in_cell, Bool.or_eq_true, decide_eq_true_eq] at hj
  rcases hj with ((h | h) | h) | h <;> subst h <;> assumption

theorem bool_commute (lt old c1 c2 wp ip wq iq : Bool) (hp : wp = true → ip = true)
    (hq : wq = true → iq = true) (hd : iq = true → ip = false) :
    (lt && (((lt && ((old && !(c1 && ip)) || wp)) && !(c2 && iq)) || wq)) =
      (lt && (((lt && ((old && !(c2 && iq)) || wq)) && !(c1 && ip)) || wp)) := by
  revert hp hq hd
  revert lt old c1 c2 wp ip wq iq
  decide

/-- Writes to two cells without a common bit index commute. -/
theorem write_mask_at_comm (P1 P2 P3 P4 Q1 Q2 Q3 Q4 : Nat)
    (hPQ : in_cell P1 P2 P3 P4 Q1 = false ∧ in_cell P1 P2 P3 P4 Q2 = false ∧
      in_cell P1 P2 P3 P4 Q3 = false ∧ in_cell P1 P2 P3 P4 Q4 = false)
    (M N : Nat) (c1 c2 : Bool) (ram : LcdRam) :
    write_mask_at Q1 Q2 Q3 Q4 N c2 (write_mask_at P1 P2 P3 P4 M c1 ram) =
      write_mask_at P1 P2 P3 P4 M c1 (write_mask_at Q1 Q2 Q3 Q4 N c2 ram) := by
  apply LcdRam.ext_testBit
  intro w j
  rw [testBit_write_mask_at, testBit_write_mask_at, testBit_write_mask_at,
    testBit_write_mask_at]
  exact bool_commute _ _ _ _ _ _ _ _ (wired_bit_in_cell P1 P2 P3 P4 M w j)
    (wired_bit_in_cell Q1 Q2 Q3 Q4 N w j) (in_cell_disjoint P1 P2 P3 P4 Q1 Q2 Q3 Q4 hPQ j)

/-- Writes to two different slots commute. -/
theorem write_mask_comm (s t : Int) (hs0 : 0 ≤ s) (hs5 : s ≤ 5) (ht0 : 0 ≤ t) (ht5 : t ≤ 5)
    (hne : s ≠ t) (M N : Nat) (c1 c2 : Bool) (ram : LcdRam) :
    write_mask_to_lcd_ram t N c2 (write_mask_to_lcd_ram s M c1 ram) =
      write_mask_to_lcd_ram s M c1 (write_mask_to_lcd_ram t N c2 ram) := by
  interval_cases s <;> interval_cases t <;>
    first
    | exact absurd rfl hne
    | exact write_mask_at_comm _ _ _ _ _ _ _ _ (by decide) M N c1 c2 ram

/-- Membership in the list of the bit indices of a slot, as a Boolean. -/
theorem in_cell_of_position_list (s : Int) (h0 : 0 ≤ s) (h5 : s ≤ 5) (j : Nat) :
    ∃ P1 P2 P3 P4 : Nat, CellOk P1 P2 P3 P4 ∧
      (∀ (M : Nat) (cb : Bool) (ram : LcdRam),
        write_mask_to_lcd_ram s M cb ram = write_mask_at P1 P2 P3 P4 M cb ram) ∧
      (∀ ram : LcdRam, read_mask_from_lcd_ram s ram = read_mask_at P1 P2 P3 P4 ram) ∧
      write_mask_position_list s = [(P1 : Int), (P2 : Int), (P3 : Int), (P4 : Int)] ∧
      (((j : Int) ∈ write_mask_position_list s) ↔ in_cell P1 P2 P3 P4 j = true) := by
  interval_cases s
  · refine ⟨0, 1, 29, 28, by decide, fun _ _ _ => rfl, fun _ => rfl, rfl, ?_⟩
    simp [write_mask_position_list, write_mask_positions, in_cell]; omega
  · refine ⟨2, 7, 27, 26, by decide, fun _ _ _ => rfl, fun _ => rfl, rfl, ?_⟩
    simp [write_mask_position_list, write_mask_positions, in_cell]; omega
  · refine ⟨8, 9, 25, 24, by decide, fun _ _ _ => rfl, fun _ => rfl, rfl, ?_⟩
    simp [write_mask_position_list, write_mask_positions, in_cell]; omega
  · refine ⟨10, 11, 21, 20, by decide, fun _ _ _ => rfl, fun _ => rfl, rfl, ?_⟩
    simp [write_mask_position_list, write_mask_positions, in_cell]; omega
  · refine ⟨12, 13, 19, 18, by decide, fun _ _ _ => rfl, fun _ => rfl, rfl, ?_⟩
    simp [write_mask_position_list, write_mask_positions, in_cell]; omega
  · refine ⟨14, 15, 16, 17, by decide, fun _ _ _ => rfl, fun _ => rfl, rfl, ?_⟩
    simp [write_mask_position_list, write_mask_positions, in_cell]; omega

/-! ## Lemmas on the accesses -/

/-- Every symbol but 0x60 is either skipped or found in the table. -/
theorem write_char_ok (position : Int) (symbol : Nat) (cb : Bool) (ram : LcdRam)
    (h : symbol ≠ 0x60) : ∃ ram2, write_char_to_lcd_ram position symbol cb ram = .ok ram2 := by
  by_cases hg : symbol > 0x60
  · exact ⟨ram, by simp only [write_char_to_lcd_ram, write_char_table_index, hg, if_true]⟩
  · have hlt : symbol < 0x60 := by omega
    obtain ⟨m, hm, _⟩ := from_ascii_lookup symbol hlt
    exact ⟨_, write_char_of_lookup position symbol m cb ram hlt hm⟩

/-- The loop of `lcd_show` comes to its end on a text without the code 0x60. -/
theorem lcd_show_loop_ok (text : List Nat) (n : Nat) (hne : text ≠ [])
    (hcodes : ∀ c ∈ text, c % 256 ≠ 0x60) (hoff : n + 5 < 2 ^ 31) :
    ∀ (r i : Nat) (ram : LcdRam), i + r = 6 →
      ∃ ram2, lcd_show_loop text (n : Int) r i ram = .ok ram2 := by
  intro r
  induction r with
  | zero => intro i ram _; exact ⟨ram, rfl⟩
  | succ r ih =>
    intro i ram hi
    obtain ⟨c, hc, hsym⟩ := text_symbol_of_nat text n i hne (by omega)
    obtain ⟨ram1, hwr⟩ :=
      write_char_ok (i : Int) (c % 256) true ram (hcodes c (List.getElem?_mem hc))
    obtain ⟨ram2, hloop⟩ := ih (i + 1) ram1 (by omega)
    exact ⟨ram2, by simp only [lcd_show_loop, hsym, hwr, hloop]⟩

/-- The call `lcd_show(text, offset)` returns when the peripheral gets ready,
on a non-empty text without the code 0x60 and an offset from 0 to
`INT_MAX - 5`. -/
theorem lcd_show_ok (ready : List Bool) (text : List Nat) (n : Nat) (ram : LcdRam)
    (hready : true ∈ ready) (hne : text ≠ []) (hcodes : ∀ c ∈ text, c % 256 ≠ 0x60)
    (hoff : n + 5 < 2 ^ 31) :
    ∃ ram2, lcd_show ready text (n : Int) ram = .ok ram2 := by
  obtain ⟨rest, hwait⟩ := wait_for_update_ready_ok ready hready
  obtain ⟨ram2, hloop⟩ :=
    lcd_show_loop_ok text n hne hcodes hoff LCD_LETTERS_COUNT 0 ram (by decide)
  exact ⟨ram2, by simp only [lcd_show, hwait, hloop]⟩

/-! ## Lemmas on the loop of `main` -/

/-- The step of the loop on an offset `m mod L`. -/
theorem main_next_offset_mod (L m : Nat) (hL : 1 ≤ L) :
    main_next_offset (L : Int) ((m % L : Nat) : Int) = .ok (((m + 1) % L : Nat) : Int) := by
  have h0 : ¬ ((L : Int) = 0) := by omega
  have hmod : Int.tmod (((m % L : Nat) : Int) + 1) (L : Int) = (((m + 1) % L : Nat) : Int) := by
    rw [Int.tmod_eq_emod (by omega) (by omega)]
    have h : (m + 1) % L = (m % L + 1) % L := by
      rw [Nat.add_mod m 1 L, Nat.add_mod (m % L) 1 L, Nat.mod_mod]
    rw [h]
    norm_cast
  simp only [main_next_offset, h0, if_false, hmod]

/-- The offsets that the loop passes to `lcd_show`, also in a run that ends in
a fault: the `k`-th of them, from the iteration `n` on, is `(n + k) mod L`. -/
theorem main_loop_calls (ready : Nat → List Bool) (TEXT : List Nat)
    (hL : 1 ≤ TEXT.length) :
    ∀ (iterations n : Nat) (ram : LcdRam) (k : Nat) (offset : Int),
      (main_loop ready TEXT iterations n ((n % TEXT.length : Nat) : Int) ram).1[k]? =
          some offset →
        offset = (((n + k) % TEXT.length : Nat) : Int) := by
  intro iterations
  induction iterations with
  | zero =>
    intro n ram k offset h
    simp only [main_loop, List.getElem?_nil] at h
    cases h
  | succ iterations ih =>
    intro n ram k offset h
    have hnext := main_next_offset_mod TEXT.length n hL
    cases hshow : lcd_show (ready n) TEXT ((n % TEXT.length : Nat) : Int) ram with
    | error e =>
      simp only [main_loop, hshow] at h
      cases k with
      | zero => simp only [List.getElem?_cons_zero, Option.some.injEq] at h; rw [← h]; rfl
      | succ k => simp only [List.getElem?_cons_succ, List.getElem?_nil] at h; cases h
    | ok ram1 =>
      simp only [main_loop, hshow, strlen, hnext] at h
      cases k with
      | zero => simp only [List.getElem?_cons_zero, Option.some.injEq] at h; rw [← h]; rfl
      | succ k =>
        simp only [List.getElem?_cons_succ] at h
        rw [ih (n + 1) ram1 k offset h, Nat.add_right_comm n 1 k, Nat.add_assoc n k 1]

/-- A run of the loop in which the peripheral gets ready in every iteration,
on a text without the code 0x60: every iteration is reached. -/
theorem main_loop_complete (ready : Nat → List Bool) (TEXT : List Nat)
    (hL : 1 ≤ TEXT.length) (hlen : TEXT.length + 5 ≤ 2 ^ 31) (hready : ∀ n, true ∈ ready n)
    (hcodes : ∀ c ∈ TEXT, c % 256 ≠ 0x60) :
    ∀ (iterations n : Nat) (ram : LcdRam),
      (main_loop ready TEXT iterations n ((n % TEXT.length : Nat) : Int) ram).1 =
          (List.range' n iterations).map (fun m => ((m % TEXT.length : Nat) : Int)) ∧
        ∃ ram2, (main_loop ready TEXT iterations n ((n % TEXT.length : Nat) : Int) ram).2 =
          .ok ((((n + iterations) % TEXT.length : Nat) : Int), ram2) := by
  have hne : TEXT ≠ [] := by
    intro h; rw [h] at hL; simp at hL
  intro iterations
  induction iterations with
  | zero => intro n ram; exact ⟨rfl, ram, rfl⟩
  | succ iterations ih =>
    intro n ram
    have hnext := main_next_offset_mod TEXT.length n hL
    have hoff : n % TEXT.length + 5 < 2 ^ 31 := by
      have := Nat.mod_lt n (show 0 < TEXT.length by omega)
      omega
    obtain ⟨ram1, hshow⟩ :=
      lcd_show_ok (ready n) TEXT (n % TEXT.length) ram (hready n) hne hcodes hoff
    obtain ⟨hcalls, ram2, hres⟩ := ih (n + 1) ram1
    constructor
    · simp only [main_loop, hshow, strlen, hnext, hcalls, List.range'_succ, List.map_cons]
    · refine ⟨ram2, ?_⟩
      simp only [main_loop, hshow, strlen, hnext, hres]
      rw [Nat.add_right_comm n 1 iterations, Nat.add_assoc n iterations 1]

/-! ## Properties of the specification -/

/-- C1, counterexample: the text "ABC" at the offset `INT_MAX` = 2147483647
with a peripheral that is ready. For slot 1 the sum `offset + 1` of two `int`
wraps to -2147483648, whose truncating remainder by 3 is -2: the call reads
`text[-2]`, outside the string, so it does not return a pixel memory in which
the slots read back the glyphs of B, C, A, B, C, A. -/
theorem lcd_show_offset_int_max :
    (true ∈ [true]) ∧ ([0x41, 0x42, 0x43] ≠ ([] : List Nat)) ∧
    (∀ c ∈ [0x41, 0x42, 0x43], c < 0x60) ∧
    wrap_int32 (2147483647 + 1) = -2147483648 ∧
    lcd_show [true] [0x41, 0x42, 0x43] ((2147483647 : Nat) : Int) ⟨0, 0, 0, 0⟩ =
      .error (.text_index_out_of_bounds (-2)) ∧
    ¬ ∃ ram2, lcd_show [true] [0x41, 0x42, 0x43] ((2147483647 : Nat) : Int) ⟨0, 0, 0, 0⟩ =
        .ok ram2 ∧
      ∀ i : Nat, i < 6 →
        some (read_mask_from_lcd_ram (i : Int) ram2) =
          (([0x41, 0x42, 0x43] : List Nat)[(2147483647 + i) %
            ([0x41, 0x42, 0x43] : List Nat).length]?).bind (fun c => from_ascii[c]?) := by
  have hrun : lcd_show [true] [0x41, 0x42, 0x43] ((2147483647 : Nat) : Int) ⟨0, 0, 0, 0⟩ =
      .error (.text_index_out_of_bounds (-2)) := by rfl
  refine ⟨by decide, by decide, by decide, by decide, hrun, ?_⟩
  rintro ⟨ram2, hok, _⟩
  rw [hrun] at hok
  cases hok

/-- C1, amended: for a non-empty text with all codes below 0x60, every offset
from 0 to `INT_MAX - 5` and every pixel memory, `lcd_show` returns once the
peripheral is ready, and the mask then read back for each slot `i` of `0 .. 5`
is the glyph table entry of the character `text[(offset + i) mod
length(text)]`. -/
theorem lcd_show_reads_back (ready : List Bool) (text : List Nat) (offset : Nat)
    (ram : LcdRam) (hready : true ∈ ready) (hne : text ≠ [])
    (hcodes : ∀ c ∈ text, c < 0x60) (hoff : offset + 5 < 2 ^ 31) :
    ∃ ram2, lcd_show ready text (offset : Int) ram = .ok ram2 ∧
      ∀ i : Nat, i < 6 →
        some (read_mask_from_lcd_ram (i : Int) ram2) =
          (text[(offset + i) % text.length]?).bind (fun c => from_ascii[c]?) := by
  obtain ⟨rest, hwait⟩ := wait_for_update_ready_ok ready hready
  obtain ⟨ram2, hloop, hge, _⟩ :=
    lcd_show_loop_reads text offset hne hcodes hoff 6 0 ram (by omega)
  refine ⟨ram2, ?_, fun i hi => hge i (Nat.zero_le i) hi⟩
  simp only [lcd_show, hwait, LCD_LETTERS_COUNT, hloop]

/-- C1, witness: the text "HELLO " at offset 0, on a pixel memory with every
bit set and a peripheral that is ready at the second poll: the slots read
back 0x0476, 0x0479, 0x0038, 0x0038, 0x003F and 0x0000. -/
theorem lcd_show_reads_back_witness :
    (true ∈ [false, true]) ∧ ([0x48, 0x45, 0x4C, 0x4C, 0x4F, 0x20] ≠ ([] : List Nat)) ∧
    (∀ c ∈ [0x48, 0x45, 0x4C, 0x4C, 0x4F, 0x20], c < 0x60) ∧ (0 + 5 < 2 ^ 31) ∧
    (∃ ram2, lcd_show [false, true] [0x48, 0x45, 0x4C, 0x4C, 0x4F, 0x20] ((0 : Nat) : Int)
        ⟨0xFFFFFFFF, 0xFFFFFFFF, 0xFFFFFFFF, 0xFFFFFFFF⟩ = .ok ram2 ∧
      ∀ i : Nat, i < 6 →
        some (read_mask_from_lcd_ram (i : Int) ram2) =
          (([0x48, 0x45, 0x4C, 0x4C, 0x4F, 0x20] : List Nat)[(0 + i) %
            ([0x48, 0x45, 0x4C, 0x4C, 0x4F, 0x20] : List Nat).length]?).bind
              (fun c => from_ascii[c]?)) ∧
    (lcd_show [false, true] [0x48, 0x45, 0x4C, 0x4C, 0x4F, 0x20] 0
        ⟨0xFFFFFFFF, 0xFFFFFFFF, 0xFFFFFFFF, 0xFFFFFFFF⟩).map
      (fun r => (List.range 6).map (fun (i : Nat) => read_mask_from_lcd_ram (i : Int) r)) =
        .ok [0x0476, 0x0479, 0x0038, 0x0038, 0x003F, 0x0000] :=
  ⟨by decide, by decide, by decide, by decide,
    lcd_show_reads_back [false, true] [0x48, 0x45, 0x4C, 0x4C, 0x4F, 0x20] 0
      ⟨0xFFFFFFFF, 0xFFFFFFFF, 0xFFFFFFFF, 0xFFFFFFFF⟩ (by decide) (by decide) (by decide)
      (by decide),
    rfl⟩

/-- C2: round trip. For every slot of `0 .. 5`, every 16-bit mask and every
pixel memory, the mask read back through the permutation table after
`write_mask_to_lcd_ram(slot, M, true)` is `M`. -/
theorem write_mask_round_trip (slot : Int) (h0 : 0 ≤ slot) (h5 : slot ≤ 5) (M : Nat)
    (hM : M < 2 ^ 16) (ram : LcdRam) :
    read_mask_from_lcd_ram slot (write_mask_to_lcd_ram slot M true ram) = M := by
  rw [read_write_mask_same slot h0 h5, Nat.mod_eq_of_lt hM]
  simp

/-- C2, witness: slot 5, mask 0xA5C3, on a pixel memory with every bit set. -/
theorem write_mask_round_trip_witness :
    ((0 : Int) ≤ 5) ∧ ((5 : Int) ≤ 5) ∧ (0xA5C3 < 2 ^ 16) ∧
    read_mask_from_lcd_ram 5 (write_mask_to_lcd_ram 5 0xA5C3 true
      ⟨0xFFFFFFFF, 0xFFFFFFFF, 0xFFFFFFFF, 0xFFFFFFFF⟩) = 0xA5C3 :=
  ⟨by decide, by decide, by decide,
    write_mask_round_trip 5 (by decide) (by decide) 0xA5C3 (by decide) _⟩

/-- C3, at the failing input: the code 0x60 passes the guard `symbol > 0x60`,
so the call is not the no-op of the claim: it reads `from_ascii[0x60]`, one
entry past the end of the table, and a frame that holds the code 0x60 has no
defined pixel memory. -/
theorem write_char_0x60_not_skipped :
    (∀ (position : Int) (clear_before : Bool) (ram : LcdRam),
      write_char_to_lcd_ram position 0x60 clear_before ram =
        .error (.glyph_index_out_of_bounds 0x60)) ∧
    (∀ ram : LcdRam, lcd_show [true] [0x60] 0 ram =
        .error (.glyph_index_out_of_bounds 0x60)) :=
  ⟨fun _ _ _ => rfl, fun _ => rfl⟩

/-- The part of C3 that the code keeps: a code above 0x60 is skipped, the
pixel memory is returned as it was. -/
theorem write_char_above_0x60_skips (position : Int) (symbol : Nat) (clear_before : Bool)
    (ram : LcdRam) (h : 0x60 < symbol) :
    write_char_to_lcd_ram position symbol clear_before ram = .ok ram := by
  have hg : symbol > 0x60 := h
  simp only [write_char_to_lcd_ram, write_char_table_index, hg, if_true]

/-- C4, at the failing input: for the symbol 0x60 the table is indexed, at
the index 0x60, and the table has the 0x60 entries `0 .. 0x5F` only. -/
theorem write_char_indexes_past_table :
    write_char_table_index 0x60 = some 0x60 ∧ from_ascii.length = 0x60 ∧
      from_ascii[0x60]? = none := by
  decide

/-- C5: for every slot of `0 .. 5` the four bit indices computed at the start
of `write_mask_to_lcd_ram` lie in `[0, 31]` and are pairwise distinct. -/
theorem write_mask_positions_distinct (slot : Int) (h0 : 0 ≤ slot) (h5 : slot ≤ 5) :
    ∃ P1 P2 P3 P4 : Int, write_mask_positions slot = (P1, P2, P3, P4) ∧
      (0 ≤ P1 ∧ P1 ≤ 31) ∧ (0 ≤ P2 ∧ P2 ≤ 31) ∧ (0 ≤ P3 ∧ P3 ≤ 31) ∧ (0 ≤ P4 ∧ P4 ≤ 31) ∧
      P1 ≠ P2 ∧ P1 ≠ P3 ∧ P1 ≠ P4 ∧ P2 ≠ P3 ∧ P2 ≠ P4 ∧ P3 ≠ P4 := by
  interval_cases slot
  · exact ⟨0, 1, 29, 28, by decide⟩
  · exact ⟨2, 7, 27, 26, by decide⟩
  · exact ⟨8, 9, 25, 24, by decide⟩
  · exact ⟨10, 11, 21, 20, by decide⟩
  · exact ⟨12, 13, 19, 18, by decide⟩
  · exact ⟨14, 15, 16, 17, by decide⟩

/-- C5, witness: slot 5, the slot with the exchanged third and fourth index. -/
theorem write_mask_positions_distinct_witness :
    ((0 : Int) ≤ 5) ∧ ((5 : Int) ≤ 5) ∧
    ∃ P1 P2 P3 P4 : Int, write_mask_positions 5 = (P1, P2, P3, P4) ∧
      (0 ≤ P1 ∧ P1 ≤ 31) ∧ (0 ≤ P2 ∧ P2 ≤ 31) ∧ (0 ≤ P3 ∧ P3 ≤ 31) ∧ (0 ≤ P4 ∧ P4 ≤ 31) ∧
      P1 ≠ P2 ∧ P1 ≠ P3 ∧ P1 ≠ P4 ∧ P2 ≠ P3 ∧ P2 ≠ P4 ∧ P3 ≠ P4 :=
  ⟨by decide, by decide, write_mask_positions_distinct 5 (by decide) (by decide)⟩

/-- C6: the position computation of `write_mask_to_lcd_ram` is the `mapSlot`
algorithm of the specification; on the slots `0 .. 5` it yields (0,1,29,28),
(2,7,27,26), (8,9,25,24), (10,11,21,20), (12,13,19,18), (14,15,16,17); the
fourth index is the third less one on the slots `0 .. 4`, and the third plus
one on slot 5, where they are 16 and 17. -/
theorem write_mask_positions_eq_mapSlot (slot : Int) (h0 : 0 ≤ slot) (h5 : slot ≤ 5) :
    write_mask_positions slot = spec_mapSlot slot ∧
    write_mask_positions slot =
      [((0 : Int), (1 : Int), (29 : Int), (28 : Int)), (2, 7, 27, 26), (8, 9, 25, 24),
        (10, 11, 21, 20), (12, 13, 19, 18), (14, 15, 16, 17)].getD slot.toNat (0, 0, 0, 0) ∧
    (slot ≤ 4 → (write_mask_positions slot).2.2.2 = (write_mask_positions slot).2.2.1 - 1) ∧
    (slot = 5 → (write_mask_positions slot).2.2.1 = 16 ∧
      (write_mask_positions slot).2.2.2 = 17 ∧
      (write_mask_positions slot).2.2.2 = (write_mask_positions slot).2.2.1 + 1) := by
  interval_cases slot <;> decide

/-- C6, witness: slot 5. -/
theorem write_mask_positions_eq_mapSlot_witness :
    ((0 : Int) ≤ 5) ∧ ((5 : Int) ≤ 5) ∧
    write_mask_positions 5 = spec_mapSlot 5 ∧ write_mask_positions 5 = (14, 15, 16, 17) :=
  ⟨by decide, by decide,
    (write_mask_positions_eq_mapSlot 5 (by decide) (by decide)).1,
    (write_mask_positions_eq_mapSlot 5 (by decide) (by decide)).2.1⟩

/-- C7: for every slot of `0 .. 5` and every mask bit `k` of `0 .. 15`, the
write of the mask `1 << k` with clearing into the all-zero pixel memory sets
one bit and no other: the bit that the permutation table of the
specification gives to `k`; and the sixteen targets of a slot are pairwise
distinct. -/
theorem write_mask_single_bit (slot : Int) (h0 : 0 ≤ slot) (h5 : slot ≤ 5) (k : Nat)
    (hk : k < 16) :
    (spec_target slot k).map (fun t => single_bit_ram t.1 t.2) =
        some (write_mask_to_lcd_ram slot (1 <<< k) true ⟨0, 0, 0, 0⟩) ∧
      ((List.range 16).map (spec_target slot)).Nodup := by
  interval_cases slot <;> interval_cases k <;> decide

/-- C7, witness: mask bit 7 of slot 5 is bit 16 of COM3. -/
theorem write_mask_single_bit_witness :
    ((0 : Int) ≤ 5) ∧ ((5 : Int) ≤ 5) ∧ (7 < 16) ∧
    spec_target 5 7 = some (.COM3, 16) ∧
    write_mask_to_lcd_ram 5 (1 <<< 7) true ⟨0, 0, 0, 0⟩ = ⟨0, 0, 0, 1 <<< 16⟩ ∧
    (spec_target 5 7).map (fun t => single_bit_ram t.1 t.2) =
        some (write_mask_to_lcd_ram 5 (1 <<< 7) true ⟨0, 0, 0, 0⟩) :=
  ⟨by decide, by decide, by decide, by decide, by decide,
    (write_mask_single_bit 5 (by decide) (by decide) 7 (by decide)).1⟩

/-- C8: idempotence. For every slot of `0 .. 5`, every 16-bit mask and every
pixel memory, `write_mask_to_lcd_ram(slot, mask, true)` called twice in a row
leaves the four words as one call leaves them. -/
theorem write_mask_idempotent (slot : Int) (_h0 : 0 ≤ slot) (_h5 : slot ≤ 5) (mask : Nat)
    (_hmask : mask < 2 ^ 16) (ram : LcdRam) :
    write_mask_to_lcd_ram slot mask true (write_mask_to_lcd_ram slot mask true ram) =
      write_mask_to_lcd_ram slot mask true ram :=
  write_mask_overwrite slot mask mask ram

/-- C8, witness: slot 1 and the mask of the glyph `8`, on a pixel memory with
every bit set. -/
theorem write_mask_idempotent_witness :
    ((0 : Int) ≤ 1) ∧ ((1 : Int) ≤ 5) ∧ (0x047F < 2 ^ 16) ∧
    write_mask_to_lcd_ram 1 0x047F true (write_mask_to_lcd_ram 1 0x047F true
        ⟨0xFFFFFFFF, 0xFFFFFFFF, 0xFFFFFFFF, 0xFFFFFFFF⟩) =
      write_mask_to_lcd_ram 1 0x047F true
        ⟨0xFFFFFFFF, 0xFFFFFFFF, 0xFFFFFFFF, 0xFFFFFFFF⟩ :=
  ⟨by decide, by decide, by decide,
    write_mask_idempotent 1 (by decide) (by decide) 0x047F (by decide) _⟩

/-- C9: last write wins. For every slot of `0 .. 5`, every two codes `a`, `b`
below 0x60 and every pixel memory, `write_char_to_lcd_ram(slot, a, true)`
followed by `write_char_to_lcd_ram(slot, b, true)` leaves the four words as
`write_char_to_lcd_ram(slot, b, true)` alone leaves them, and the slot reads
back as the glyph of `b`: no segment of the glyph of `a` is left. -/
theorem write_char_last_wins (slot : Int) (h0 : 0 ≤ slot) (h5 : slot ≤ 5) (a b : Nat)
    (ha : a < 0x60) (hb : b < 0x60) (ram : LcdRam) :
    ∃ ram1 ram2, write_char_to_lcd_ram slot a true ram = .ok ram1 ∧
      write_char_to_lcd_ram slot b true ram1 = .ok ram2 ∧
      write_char_to_lcd_ram slot b true ram = .ok ram2 ∧
      some (read_mask_from_lcd_ram slot ram2) = from_ascii[b]? := by
  obtain ⟨ma, hma, _⟩ := from_ascii_lookup a ha
  obtain ⟨mb, hmb, hmb16⟩ := from_ascii_lookup b hb
  refine ⟨write_mask_to_lcd_ram slot ma true ram, write_mask_to_lcd_ram slot mb true ram,
    write_char_of_lookup slot a ma true ram ha hma, ?_,
    write_char_of_lookup slot b mb true ram hb hmb, ?_⟩
  · rw [write_char_of_lookup slot b mb true _ hb hmb, write_mask_overwrite]
  · rw [read_write_mask_same slot h0 h5, Nat.mod_eq_of_lt hmb16, hmb]
    simp

/-- C9, witness: the glyph `O` (0x4F, mask 0x003F) written over the glyph `8`
(0x38, mask 0x047F) in slot 2 of a pixel memory with every bit set: the slot
reads back 0x003F. -/
theorem write_char_last_wins_witness :
    ((0 : Int) ≤ 2) ∧ ((2 : Int) ≤ 5) ∧ (0x38 < 0x60) ∧ (0x4F < 0x60) ∧
    from_ascii[0x38]? = some 0x047F ∧ from_ascii[0x4F]? = some 0x003F ∧
    (∃ ram1 ram2, write_char_to_lcd_ram 2 0x38 true
          ⟨0xFFFFFFFF, 0xFFFFFFFF, 0xFFFFFFFF, 0xFFFFFFFF⟩ = .ok ram1 ∧
      write_char_to_lcd_ram 2 0x4F true ram1 = .ok ram2 ∧
      write_char_to_lcd_ram 2 0x4F true
          ⟨0xFFFFFFFF, 0xFFFFFFFF, 0xFFFFFFFF, 0xFFFFFFFF⟩ = .ok ram2 ∧
      some (read_mask_from_lcd_ram 2 ram2) = from_ascii[0x4F]?) ∧
    ((write_char_to_lcd_ram 2 0x38 true
          ⟨0xFFFFFFFF, 0xFFFFFFFF, 0xFFFFFFFF, 0xFFFFFFFF⟩).bind
        (write_char_to_lcd_ram 2 0x4F true)).map (read_mask_from_lcd_ram 2) = .ok 0x003F :=
  ⟨by decide, by decide, by decide, by decide, by decide, by decide,
    write_char_last_wins 2 (by decide) (by decide) 0x38 0x4F (by decide) (by decide) _, rfl⟩

/-- C10, counterexample: the text "ABC" at the offset 2147483641 =
`INT_MAX - 6` with a peripheral that is ready. At this offset the call
returns; at the offset plus the length of the text, 2147483644, the sum
`offset + 4` of two `int` wraps to -2147483648, whose truncating remainder by
3 is -2, and the call reads `text[-2]`, outside the string: the two calls do
not return the same pixel memory. -/
theorem lcd_show_wraparound_overflow :
    (true ∈ [true]) ∧ ([0x41, 0x42, 0x43] ≠ ([] : List Nat)) ∧
    (∀ c ∈ [0x41, 0x42, 0x43], c < 0x60) ∧
    (∃ ram1, lcd_show [true] [0x41, 0x42, 0x43] ((2147483641 : Nat) : Int) ⟨0, 0, 0, 0⟩ =
      .ok ram1) ∧
    lcd_show [true] [0x41, 0x42, 0x43]
        ((2147483641 + ([0x41, 0x42, 0x43] : List Nat).length : Nat) : Int) ⟨0, 0, 0, 0⟩ =
      .error (.text_index_out_of_bounds (-2)) ∧
    ¬ ∃ ram2, lcd_show [true] [0x41, 0x42, 0x43]
          ((2147483641 + ([0x41, 0x42, 0x43] : List Nat).length : Nat) : Int) ⟨0, 0, 0, 0⟩ =
        .ok ram2 ∧
      lcd_show [true] [0x41, 0x42, 0x43] ((2147483641 : Nat) : Int) ⟨0, 0, 0, 0⟩ = .ok ram2 := by
  have hrun : lcd_show [true] [0x41, 0x42, 0x43]
      ((2147483641 + ([0x41, 0x42, 0x43] : List Nat).length : Nat) : Int) ⟨0, 0, 0, 0⟩ =
      .error (.text_index_out_of_bounds (-2)) := by rfl
  refine ⟨by decide, by decide, by decide, ⟨_, rfl⟩, hrun, ?_⟩
  rintro ⟨ram2, hok, _⟩
  rw [hrun] at hok
  cases hok

/-- C10, amended: scroll wraparound. For a non-empty text with all codes below
0x60, every offset at least zero for which the offset plus the length of the
text does not exceed `INT_MAX - 5`, and every pixel memory, `lcd_show` at the
offset plus the length of the text returns the pixel memory that `lcd_show`
at the offset returns. -/
theorem lcd_show_wraparound (ready : List Bool) (text : List Nat) (offset : Nat)
    (ram : LcdRam) (hready : true ∈ ready) (hne : text ≠ [])
    (hcodes : ∀ c ∈ text, c < 0x60) (hoff : offset + text.length + 5 < 2 ^ 31) :
    ∃ ram2, lcd_show ready text ((offset + text.length : Nat) : Int) ram = .ok ram2 ∧
      lcd_show ready text (offset : Int) ram = .ok ram2 := by
  obtain ⟨rest, hwait⟩ := wait_for_update_ready_ok ready hready
  obtain ⟨ram2, hloop, _, _⟩ :=
    lcd_show_loop_reads text offset hne hcodes (by omega) 6 0 ram (by omega)
  refine ⟨ram2, ?_, ?_⟩
  · simp only [lcd_show, hwait, LCD_LETTERS_COUNT,
      lcd_show_loop_add_length text offset hne hoff 6 0 ram (by omega), hloop]
  · simp only [lcd_show, hwait, LCD_LETTERS_COUNT, hloop]

/-- C10, witness: the text "AB" on a pixel memory with every bit set. The
frame at offset 0 reads back the glyphs of "ABABAB", the frame at offset 1
those of "BABABA", and the frame at offset 2 is the frame at offset 0. -/
theorem lcd_show_wraparound_witness :
    (true ∈ [true]) ∧ ([0x41, 0x42] ≠ ([] : List Nat)) ∧ (∀ c ∈ [0x41, 0x42], c < 0x60) ∧
    (0 + ([0x41, 0x42] : List Nat).length + 5 < 2 ^ 31) ∧
    from_ascii[0x41]? = some 0x0477 ∧ from_ascii[0x42]? = some 0x047C ∧
    (∃ ram2, lcd_show [true] [0x41, 0x42] ((0 + ([0x41, 0x42] : List Nat).length : Nat) : Int)
          ⟨0xFFFFFFFF, 0xFFFFFFFF, 0xFFFFFFFF, 0xFFFFFFFF⟩ = .ok ram2 ∧
      lcd_show [true] [0x41, 0x42] ((0 : Nat) : Int)
          ⟨0xFFFFFFFF, 0xFFFFFFFF, 0xFFFFFFFF, 0xFFFFFFFF⟩ = .ok ram2) ∧
    (lcd_show [true] [0x41, 0x42] 0 ⟨0xFFFFFFFF, 0xFFFFFFFF, 0xFFFFFFFF, 0xFFFFFFFF⟩).map
      (fun r => (List.range 6).map (fun (i : Nat) => read_mask_from_lcd_ram (i : Int) r)) =
        .ok [0x0477, 0x047C, 0x0477, 0x047C, 0x0477, 0x047C] ∧
    (lcd_show [true] [0x41, 0x42] 1 ⟨0xFFFFFFFF, 0xFFFFFFFF, 0xFFFFFFFF, 0xFFFFFFFF⟩).map
      (fun r => (List.range 6).map (fun (i : Nat) => read_mask_from_lcd_ram (i : Int) r)) =
        .ok [0x047C, 0x0477, 0x047C, 0x0477, 0x047C, 0x0477] ∧
    lcd_show [true] [0x41, 0x42] 2 ⟨0xFFFFFFFF, 0xFFFFFFFF, 0xFFFFFFFF, 0xFFFFFFFF⟩ =
      lcd_show [true] [0x41, 0x42] 0 ⟨0xFFFFFFFF, 0xFFFFFFFF, 0xFFFFFFFF, 0xFFFFFFFF⟩ :=
  ⟨by decide, by decide, by decide, by decide, by decide, by decide,
    lcd_show_wraparound [true] [0x41, 0x42] 0 _ (by decide) (by decide) (by decide)
      (by decide),
    rfl, rfl, rfl⟩

/-- C12, counterexample: the backslash (0x5C) is none of the listed codes and
its table entry is 0x0880, not zero. -/
theorem from_ascii_backslash_nonzero :
    from_ascii[0x5C]? = some 0x0880 ∧ spec_has_glyph 0x5C = false ∧
      ¬ (from_ascii[0x5C]? ≠ some 0 ↔ spec_has_glyph 0x5C = true) := by
  decide

/-- C12, amended: for every code below 0x60 the table entry is non-zero if and
only if the code is a digit, an upper case letter, one of `* + - . / : _`, or
the backslash; every other code has the entry zero. -/
theorem from_ascii_nonzero_iff (c : Nat) (hc : c < 0x60) :
    ∃ m, from_ascii[c]? = some m ∧ (m ≠ 0 ↔ (spec_has_glyph c = true ∨ c = 0x5C)) ∧
      (¬ (spec_has_glyph c = true ∨ c = 0x5C) → m = 0) := by
  interval_cases c <;> exact ⟨_, rfl, by decide, by decide⟩

/-- C12, witness of the amended statement: the backslash. -/
theorem from_ascii_nonzero_iff_witness :
    (0x5C < 0x60) ∧
    ∃ m, from_ascii[0x5C]? = some m ∧ (m ≠ 0 ↔ (spec_has_glyph 0x5C = true ∨ 0x5C = 0x5C)) ∧
      (¬ (spec_has_glyph 0x5C = true ∨ 0x5C = 0x5C) → m = 0) :=
  ⟨by decide, from_ascii_nonzero_iff 0x5C (by decide)⟩

/-- C13: no two slots share a bit index. For slots `s ≠ t` of `0 .. 5` no
index of `s` is an index of `t`, and the six slots together use 24 distinct
bit indices, all of them below 32. -/
theorem write_mask_positions_disjoint (s t : Int) (hs0 : 0 ≤ s) (hs5 : s ≤ 5) (ht0 : 0 ≤ t)
    (ht5 : t ≤ 5) (hne : s ≠ t) :
    (∀ p ∈ write_mask_position_list s, p ∉ write_mask_position_list t) ∧
    (([0, 1, 2, 3, 4, 5].map write_mask_position_list).flatten).Nodup ∧
    (([0, 1, 2, 3, 4, 5].map write_mask_position_list).flatten).length = 24 ∧
    (∀ p ∈ ([0, 1, 2, 3, 4, 5].map write_mask_position_list).flatten, 0 ≤ p ∧ p < 32) := by
  refine ⟨?_, by decide, by decide, by decide⟩
  interval_cases s <;> interval_cases t <;>
    first
    | exact absurd rfl hne
    | decide

/-- C13, witness: the slots 4 and 5. -/
theorem write_mask_positions_disjoint_witness :
    ((0 : Int) ≤ 4) ∧ ((4 : Int) ≤ 5) ∧ ((0 : Int) ≤ 5) ∧ ((5 : Int) ≤ 5) ∧ ((4 : Int) ≠ 5) ∧
    write_mask_position_list 4 = [12, 13, 19, 18] ∧
    write_mask_position_list 5 = [14, 15, 16, 17] ∧
    (∀ p ∈ write_mask_position_list 4, p ∉ write_mask_position_list 5) :=
  ⟨by decide, by decide, by decide, by decide, by decide, by decide, by decide,
    (write_mask_positions_disjoint 4 5 (by decide) (by decide) (by decide) (by decide)
      (by decide)).1⟩

/-- C14: without clearing `write_mask_to_lcd_ram` only ORs bits in. For every
slot of `0 .. 5`, every 16-bit mask and every pixel memory of 32-bit words,
each bit set before the call is set after it, and the mask read back for the
slot after the call is the mask read back before it ORed with the mask
written. -/
theorem write_mask_no_clear_ors (slot : Int) (h0 : 0 ≤ slot) (h5 : slot ≤ 5) (M : Nat)
    (hM : M < 2 ^ 16) (ram : LcdRam) (hwf : ram.wf) :
    (∀ (w : ComWord) (j : Nat), (ram.word w).testBit j = true →
      ((write_mask_to_lcd_ram slot M false ram).word w).testBit j = true) ∧
    read_mask_from_lcd_ram slot (write_mask_to_lcd_ram slot M false ram) =
      (read_mask_from_lcd_ram slot ram ||| M) := by
  constructor
  · intro w j hj
    unfold write_mask_to_lcd_ram
    exact write_mask_at_keeps _ _ _ _ M ram hwf w j hj
  · rw [read_write_mask_same slot h0 h5, Nat.mod_eq_of_lt hM, cond_false, Nat.lor_comm]

/-- C14, witness: the mask 0x0440 of `-` ORed into slot 3 of a pixel memory
that shows the glyph `1` (0x0006) there: the slot reads back 0x0446. -/
theorem write_mask_no_clear_ors_witness :
    ((0 : Int) ≤ 3) ∧ ((3 : Int) ≤ 5) ∧ (0x0440 < 2 ^ 16) ∧
    (write_mask_to_lcd_ram 3 0x0006 true ⟨0, 0, 0, 0⟩).wf ∧
    read_mask_from_lcd_ram 3 (write_mask_to_lcd_ram 3 0x0006 true ⟨0, 0, 0, 0⟩) = 0x0006 ∧
    read_mask_from_lcd_ram 3
        (write_mask_to_lcd_ram 3 0x0440 false (write_mask_to_lcd_ram 3 0x0006 true ⟨0, 0, 0, 0⟩)) =
      0x0446 ∧
    read_mask_from_lcd_ram 3
        (write_mask_to_lcd_ram 3 0x0440 false (write_mask_to_lcd_ram 3 0x0006 true ⟨0, 0, 0, 0⟩)) =
      (read_mask_from_lcd_ram 3 (write_mask_to_lcd_ram 3 0x0006 true ⟨0, 0, 0, 0⟩) ||| 0x0440) :=
  ⟨by decide, by decide, by decide, by decide, by decide, by decide,
    (write_mask_no_clear_ors 3 (by decide) (by decide) 0x0440 (by decide) _ (by decide)).2⟩

/-- C15: frame. For every slot `s` of `0 .. 5`, every mask, clear flag and
pixel memory of 32-bit words, `write_mask_to_lcd_ram(s, mask, clear_before)`
changes no bit of the four words at an index that is none of the four indices
of `s`, and the mask read back for every other slot of `0 .. 5` is the same
before and after the call. -/
theorem write_mask_frame (s : Int) (h0 : 0 ≤ s) (h5 : s ≤ 5) (mask : Nat)
    (clear_before : Bool) (ram : LcdRam) (hwf : ram.wf) :
    (∀ (w : ComWord) (j : Nat), (j : Int) ∉ write_mask_position_list s →
      ((write_mask_to_lcd_ram s mask clear_before ram).word w).testBit j =
        (ram.word w).testBit j) ∧
    (∀ t : Int, 0 ≤ t → t ≤ 5 → t ≠ s →
      read_mask_from_lcd_ram t (write_mask_to_lcd_ram s mask clear_before ram) =
        read_mask_from_lcd_ram t ram) := by
  constructor
  · intro w j hj
    obtain ⟨P1, P2, P3, P4, _, hwrite, _, _, hmem⟩ := in_cell_of_position_list s h0 h5 j
    have hout : in_cell P1 P2 P3 P4 j = false := by
      cases hc : in_cell P1 P2 P3 P4 j
      · rfl
      · exact absurd (hmem.mpr hc) hj
    rw [hwrite]
    exact write_mask_at_frame P1 P2 P3 P4 mask clear_before ram hwf w j hout
  · intro t ht0 ht5 hts
    exact read_write_mask_other s t h0 h5 ht0 ht5 (fun h => hts h.symm) mask clear_before ram

/-- C15, witness: a clearing write of the mask 0xFFFF into slot 2 of the pixel
memory with every bit of the 32-bit words set: slot 3 still reads 0xFFFF, and
bit 31, which belongs to no slot, is still set. -/
theorem write_mask_frame_witness :
    ((0 : Int) ≤ 2) ∧ ((2 : Int) ≤ 5) ∧
    (LcdRam.wf ⟨0xFFFFFFFF, 0xFFFFFFFF, 0xFFFFFFFF, 0xFFFFFFFF⟩) ∧
    (((31 : Nat) : Int) ∉ write_mask_position_list 2) ∧
    ((write_mask_to_lcd_ram 2 0xFFFF true
        ⟨0xFFFFFFFF, 0xFFFFFFFF, 0xFFFFFFFF, 0xFFFFFFFF⟩).word .COM0).testBit 31 =
      (LcdRam.word ⟨0xFFFFFFFF, 0xFFFFFFFF, 0xFFFFFFFF, 0xFFFFFFFF⟩ .COM0).testBit 31 ∧
    read_mask_from_lcd_ram 3 (write_mask_to_lcd_ram 2 0xFFFF true
        ⟨0xFFFFFFFF, 0xFFFFFFFF, 0xFFFFFFFF, 0xFFFFFFFF⟩) =
      read_mask_from_lcd_ram 3 ⟨0xFFFFFFFF, 0xFFFFFFFF, 0xFFFFFFFF, 0xFFFFFFFF⟩ :=
  ⟨by decide, by decide, by decide, by decide,
    (write_mask_frame 2 (by decide) (by decide) 0xFFFF true _ (by decide)).1 .COM0 31
      (by decide),
    (write_mask_frame 2 (by decide) (by decide) 0xFFFF true _ (by decide)).2 3 (by decide)
      (by decide) (by decide)⟩

/-- C16: writes to different slots commute. For all slots `s ≠ t` of `0 .. 5`,
all masks, all clear flags and every pixel memory, the write to `s` followed
by the write to `t` leaves the four words as the write to `t` followed by the
write to `s` leaves them. -/
theorem write_mask_slots_commute (s t : Int) (hs0 : 0 ≤ s) (hs5 : s ≤ 5) (ht0 : 0 ≤ t)
    (ht5 : t ≤ 5) (hne : s ≠ t) (M N : Nat) (c1 c2 : Bool) (ram : LcdRam) :
    write_mask_to_lcd_ram t N c2 (write_mask_to_lcd_ram s M c1 ram) =
      write_mask_to_lcd_ram s M c1 (write_mask_to_lcd_ram t N c2 ram) :=
  write_mask_comm s t hs0 hs5 ht0 ht5 hne M N c1 c2 ram

/-- C16, witness: the glyph `8` into slot 0 with clearing and the glyph `-`
into slot 5 without, on the pixel memory with every bit set. -/
theorem write_mask_slots_commute_witness :
    ((0 : Int) ≤ 0) ∧ ((0 : Int) ≤ 5) ∧ ((0 : Int) ≤ 5) ∧ ((5 : Int) ≤ 5) ∧ ((0 : Int) ≠ 5) ∧
    write_mask_to_lcd_ram 5 0x0440 false (write_mask_to_lcd_ram 0 0x047F true
        ⟨0xFFFFFFFF, 0xFFFFFFFF, 0xFFFFFFFF, 0xFFFFFFFF⟩) =
      write_mask_to_lcd_ram 0 0x047F true (write_mask_to_lcd_ram 5 0x0440 false
        ⟨0xFFFFFFFF, 0xFFFFFFFF, 0xFFFFFFFF, 0xFFFFFFFF⟩) :=
  ⟨by decide, by decide, by decide, by decide, by decide,
    write_mask_slots_commute 0 5 (by decide) (by decide) (by decide) (by decide) (by decide)
      0x047F 0x0440 true false _⟩

/-- C11: scroll state invariant. For every text of length `L ≥ 1` the loop of
`main` starts with the offset 0, every iteration replaces the offset by
`(offset + 1) mod L`, and the offset passed to `lcd_show` in iteration `n` is
`n mod L`, which lies in `[0, L)`; this holds of every observed run, also one
that ends in a fault. When the peripheral gets ready in every iteration and
the text holds no code 0x60 and is short enough for the sums `offset + i` of
`lcd_show` not to exceed `INT_MAX`, every iteration is reached. -/
theorem main_offset_invariant (ready : Nat → List Bool) (TEXT : List Nat)
    (hL : 1 ≤ TEXT.length) (iterations : Nat) (ram : LcdRam) :
    main ready TEXT iterations ram = main_loop ready TEXT iterations 0 0 ram ∧
    (∀ offset : Nat, main_next_offset (strlen TEXT) (offset : Int) =
      .ok (((offset + 1) % TEXT.length : Nat) : Int)) ∧
    (∀ (n : Nat) (offset : Int), (main ready TEXT iterations ram).1[n]? = some offset →
      offset = ((n % TEXT.length : Nat) : Int) ∧ 0 ≤ offset ∧ offset < TEXT.length) ∧
    (TEXT.length + 5 ≤ 2 ^ 31 → (∀ n, true ∈ ready n) → (∀ c ∈ TEXT, c % 256 ≠ 0x60) →
      (main ready TEXT iterations ram).1 =
          (List.range iterations).map (fun n => ((n % TEXT.length : Nat) : Int)) ∧
        ∃ ram2, (main ready TEXT iterations ram).2 =
          .ok (((iterations % TEXT.length : Nat) : Int), ram2)) := by
  have hzero : (0 : Int) = ((0 % TEXT.length : Nat) : Int) := by simp
  refine ⟨rfl, ?_, ?_, ?_⟩
  · intro offset
    have h0 : ¬ (((strlen TEXT : Nat) : Int) = 0) := by unfold strlen; omega
    have hmod : Int.tmod ((offset : Int) + 1) ((strlen TEXT : Nat) : Int) =
        (((offset + 1) % TEXT.length : Nat) : Int) := by
      rw [Int.tmod_eq_emod (by omega) (by omega)]
      unfold strlen
      norm_cast
    simp only [main_next_offset, h0, if_false, hmod]
  · intro n offset h
    unfold main at h
    rw [hzero] at h
    have := main_loop_calls ready TEXT hL iterations 0 ram n offset h
    rw [Nat.zero_add] at this
    have hlt : n % TEXT.length < TEXT.length := Nat.mod_lt _ (by omega)
    subst this
    exact ⟨rfl, by omega, by omega⟩
  · intro hlen hready hcodes
    unfold main
    rw [hzero]
    obtain ⟨hcalls, ram2, hres⟩ :=
      main_loop_complete ready TEXT hL hlen hready hcodes iterations 0 ram
    rw [Nat.zero_add] at hres
    exact ⟨by rw [hcalls, List.range_eq_range'], ram2, hres⟩

/-- C11, witness: the text "ABC" over seven iterations with a peripheral that
is always ready: the offsets passed to `lcd_show` are 0, 1, 2, 0, 1, 2, 0. -/
theorem main_offset_invariant_witness :
    (1 ≤ ([0x41, 0x42, 0x43] : List Nat).length) ∧
    (main (fun _ => [true]) [0x41, 0x42, 0x43] 7 ⟨0, 0, 0, 0⟩).1 = [0, 1, 2, 0, 1, 2, 0] ∧
    (∀ (n : Nat) (offset : Int),
      (main (fun _ => [true]) [0x41, 0x42, 0x43] 7 ⟨0, 0, 0, 0⟩).1[n]? = some offset →
      offset = ((n % ([0x41, 0x42, 0x43] : List Nat).length : Nat) : Int) ∧ 0 ≤ offset ∧
        offset < ([0x41, 0x42, 0x43] : List Nat).length) :=
  ⟨by decide, rfl,
    (main_offset_invariant (fun _ => [true]) [0x41, 0x42, 0x43] (by decide) 7
      ⟨0, 0, 0, 0⟩).2.2.1⟩

end LcdTicker
